import Mathlib

/-
Shallow embedding of SnapNote's `src/processor.py`.

Pixels are 8-bit values modelled as `Nat`; geometry is exact rational
arithmetic (`ℚ`), standing for the source's floating-point computations.
An image is a list of rows, each row a list of pixels, each pixel a list
of channel values, mirroring a numpy array of shape (h, w, c); a
single-channel (grayscale/binary) raster has pixel lists of length 1.

Calls into the OpenCV library are modelled through a record `CV` of
abstract primitive operations (edge detection, contour extraction,
filters, warp resampling).  Wrappers around those fields encode exactly
the shape/channel contracts OpenCV documents (e.g. `cvtColor` with
`COLOR_BGR2GRAY` accepts only 3- or 4-channel input and produces a
single-channel raster); everything written in `processor.py` itself is
transcribed directly.
-/

/-- Map over a list with the element index, starting the count at `n`. -/
def mapIdxFrom {α β : Type} (f : Nat → α → β) : Nat → List α → List β
  | _, [] => []
  | n, a :: as => f n a :: mapIdxFrom f (n + 1) as

/-- Map over a list with the element index. -/
def mapIdx {α β : Type} (f : Nat → α → β) (l : List α) : List β := mapIdxFrom f 0 l

/-- Raw pixel grid: rows of pixels, each pixel a list of channel values. -/
abbrev R : Type := List (List (List Nat))

/-- Channel count of a pixel grid (length of the first pixel of the first row). -/
def channelsR (r : R) : Nat := ((r.headD []).headD []).length

/-- A raster image, as handed between the pipeline stages. -/
structure Img where
  rows : R
deriving DecidableEq

/-- Image height (number of rows), `image.shape[0]`. -/
def height (img : Img) : Nat := img.rows.length

/-- Image width (number of columns), `image.shape[1]`. -/
def width (img : Img) : Nat := (img.rows.headD []).length

/-- Image channel count. -/
def channels (img : Img) : Nat := channelsR img.rows

/-- Errors raised by the modelled OpenCV primitives. -/
inductive CVErr where
  | invalidChannels
deriving DecidableEq

instance {ε α : Type} [DecidableEq ε] [DecidableEq α] : DecidableEq (Except ε α) := fun a b =>
  match a, b with
  | Except.ok x, Except.ok y =>
      if h : x = y then Decidable.isTrue (by rw [h])
      else Decidable.isFalse (fun hh => h (Except.ok.inj hh))
  | Except.error x, Except.error y =>
      if h : x = y then Decidable.isTrue (by rw [h])
      else Decidable.isFalse (fun hh => h (Except.error.inj hh))
  | Except.ok _, Except.error _ => Decidable.isFalse (fun hh => Except.noConfusion hh)
  | Except.error _, Except.ok _ => Decidable.isFalse (fun hh => Except.noConfusion hh)

/-- A contour: a polyline of 2-D points (x, y) in rational coordinates. -/
abbrev Contour : Type := List (ℚ × ℚ)

/-- A 4-point polygon, as returned by the locator. -/
abbrev Quad : Type := List (ℚ × ℚ)

/-- Index of the first occurrence of the minimum, the semantics of `np.argmin`
(returns 0 on an empty list, where numpy would raise). -/
def argminList : List ℚ → Nat
  | [] => 0
  | x :: xs => if ∀ y ∈ xs, x ≤ y then 0 else argminList xs + 1

/-- Index of the first occurrence of the maximum, the semantics of `np.argmax`:
the first maximum of `l` is the first minimum of the negated list. -/
def argmaxList (l : List ℚ) : Nat := argminList (l.map (fun x => -x))

/-- Transcription of `order_points` (processor.py lines 4-23).
`np.diff(pts, axis=1)` computes `y - x` for each point.  The result list is
`[rect0, rect1, rect2, rect3]` = top-left, top-right, bottom-right, bottom-left. -/
def orderPoints (pts : List (ℚ × ℚ)) : List (ℚ × ℚ) :=
  let s := pts.map (fun p => p.1 + p.2)
  let d := pts.map (fun p => p.2 - p.1)
  [pts.getD (argminList s) (0, 0), pts.getD (argminList d) (0, 0),
   pts.getD (argmaxList s) (0, 0), pts.getD (argmaxList d) (0, 0)]

/-- Squared Euclidean distance, e.g. `((br[0]-bl[0])**2) + ((br[1]-bl[1])**2)`. -/
def sqDist (p q : ℚ × ℚ) : ℚ := (p.1 - q.1) ^ 2 + (p.2 - q.2) ^ 2

/-- The integer `int(np.sqrt(s))` for the squared distance `s ≥ 0`: truncation
of a nonnegative real is its floor, and `⌊√s⌋ = Nat.sqrt ⌊s⌋` (proved below in
`intSqrt_eq_floor_sqrt`), which gives an executable definition. -/
def intSqrtDist (p q : ℚ × ℚ) : Nat := Nat.sqrt (⌊sqDist p q⌋).toNat

/-- Target dimensions of `four_point_transform` (processor.py lines 35-44):
`maxWidth = max(int(widthA), int(widthB))`, `maxHeight = max(int(heightA), int(heightB))`. -/
def fourPointDims (tl tr br bl : ℚ × ℚ) : Nat × Nat :=
  let widthA := intSqrtDist br bl
  let widthB := intSqrtDist tr tl
  let maxWidth := max widthA widthB
  let heightA := intSqrtDist tr br
  let heightB := intSqrtDist tl bl
  let maxHeight := max heightA heightB
  (maxWidth, maxHeight)

/-- Abstract model of the OpenCV primitives used by processor.py.  Pixel-valued
fields give the value of the output at a position, computed from the whole
source grid; contour-valued fields model edge/contour extraction. -/
structure CV where
  /-- cv2.resize: value at (i, j, k) of the resize of `src` to `dsize`. -/
  resizePix : R → Nat × Nat → Nat → Nat → Nat → Nat
  /-- cv2.GaussianBlur: value at (i, j, k) given source, ksize and sigma. -/
  gaussianBlurPix : R → Nat × Nat → ℚ → Nat → Nat → Nat → Nat
  /-- cv2.createCLAHE(clipLimit, tileGridSize).apply: value at (i, j, k). -/
  clahePix : ℚ → Nat × Nat → R → Nat → Nat → Nat → Nat
  /-- cv2.bilateralFilter(src, d, sigmaColor, sigmaSpace): value at (i, j, k). -/
  bilateralPix : R → Nat → ℚ → ℚ → Nat → Nat → Nat → Nat
  /-- Gaussian-weighted neighbourhood mean used by cv2.adaptiveThreshold with
  ADAPTIVE_THRESH_GAUSSIAN_C and the given block size, at position (i, j). -/
  adaptiveMeanPix : R → Nat → Nat → Nat → ℚ
  /-- cv2.Canny(gray, low, high): binary edge map. -/
  canny : R → Nat → Nat → R
  /-- cv2.dilate with the given kernel size and iteration count. -/
  dilate : R → Nat × Nat → Nat → R
  /-- cv2.findContours (RETR_LIST, CHAIN_APPROX_SIMPLE): all contours. -/
  findContours : R → List Contour
  /-- cv2.contourArea. -/
  contourArea : Contour → ℚ
  /-- cv2.arcLength(curve, closed). -/
  arcLength : Contour → Bool → ℚ
  /-- cv2.approxPolyDP(curve, epsilon, closed). -/
  approxPolyDP : Contour → ℚ → Bool → Contour
  /-- cv2.getPerspectiveTransform(rect, dst) followed by cv2.warpPerspective
  resampling: value at (i, j, k) of the warp of `src` to size `dsize`. -/
  warpPix : R → List (ℚ × ℚ) → List (ℚ × ℚ) → Nat × Nat → Nat → Nat → Nat → Nat

/-- Shape-preserving pixel grid rebuild from a positional value function. -/
def pointOp (f : Nat → Nat → Nat → Nat) (r : R) : R :=
  mapIdx (fun i row => mapIdx (fun j px => mapIdx (fun k _ => f i j k) px) row) r

/-- Build an h × w × c pixel grid from a positional value function. -/
def buildGrid (h w c : Nat) (f : Nat → Nat → Nat → Nat) : R :=
  (List.range h).map (fun i => (List.range w).map (fun j => (List.range c).map (fun k => f i j k)))

/-- Apply a scalar function to every channel value of every pixel. -/
def mapPixels (f : Nat → Nat) (r : R) : R :=
  r.map (fun row => row.map (fun px => px.map f))

/-- OpenCV's fixed-point BT.601 luma for a BGR pixel:
`(B*1868 + G*9617 + R*4899 + 2^13) >> 14`. -/
def grayFix (px : List Nat) : Nat :=
  (1868 * px.getD 0 0 + 9617 * px.getD 1 0 + 4899 * px.getD 2 0 + 8192) / 16384

/-- Grayscale conversion of a whole pixel grid. -/
def grayRowsOf (r : R) : R :=
  r.map (fun row => row.map (fun px => [grayFix px]))

/-- cv2.cvtColor(image, cv2.COLOR_BGR2GRAY): accepts only 3- or 4-channel
input (raises on single-channel input) and produces a single-channel raster. -/
def cvtColorBGR2GRAY (img : Img) : Except CVErr Img :=
  if channelsR img.rows = 3 ∨ channelsR img.rows = 4 then
    Except.ok (Img.mk (grayRowsOf img.rows))
  else
    Except.error CVErr.invalidChannels

/-- cv2.GaussianBlur(gray, (5, 5), 0) as used in find_document_contour. -/
def gaussianBlurImg (cv : CV) (img : Img) : Img :=
  Img.mk (pointOp (cv.gaussianBlurPix img.rows (5, 5) 0) img.rows)

/-- cv2.createCLAHE(clipLimit=3.0, tileGridSize=(8,8)).apply(gray). -/
def claheImg (cv : CV) (img : Img) : Img :=
  Img.mk (pointOp (cv.clahePix 3 (8, 8) img.rows) img.rows)

/-- cv2.bilateralFilter(enhanced, 9, 75, 75). -/
def bilateralImg (cv : CV) (img : Img) : Img :=
  Img.mk (pointOp (cv.bilateralPix img.rows 9 75 75) img.rows)

/-- cv2.resize(image, dsize) with dsize = (newW, newH). -/
def resizeImg (cv : CV) (img : Img) (newW newH : Nat) : Img :=
  Img.mk (buildGrid newH newW (channelsR img.rows) (cv.resizePix img.rows (newW, newH)))

/-- Pixel grid of cv2.adaptiveThreshold(src, maxVal, ADAPTIVE_THRESH_GAUSSIAN_C,
THRESH_BINARY, blockSize, C): `maxVal` where `src(x,y) > mean(x,y) - C`, else 0. -/
def threshRowsOf (cv : CV) (blockSize : Nat) (cConst : ℚ) (maxVal : Nat) (r : R) : R :=
  mapIdx (fun i row =>
    mapIdx (fun j px =>
      px.map (fun (v : Nat) =>
        if (v : ℚ) > cv.adaptiveMeanPix r blockSize i j - cConst then maxVal else 0))
    row) r

/-- cv2.adaptiveThreshold: requires single-channel 8-bit input, outputs the
two-level single-channel raster. -/
def adaptiveThresholdImg (cv : CV) (img : Img) (maxVal blockSize : Nat) (cConst : ℚ) :
    Except CVErr Img :=
  if channelsR img.rows = 1 then
    Except.ok (Img.mk (threshRowsOf cv blockSize cConst maxVal img.rows))
  else
    Except.error CVErr.invalidChannels

/-- Transcription of `apply_adaptive_threshold` (processor.py lines 109-127). -/
def applyAdaptiveThreshold (cv : CV) (image : Img) : Except CVErr Img := do
  let gray ← cvtColorBGR2GRAY image
  let enhanced := claheImg cv gray
  let filtered := bilateralImg cv enhanced
  adaptiveThresholdImg cv filtered 255 11 2

/-- Per-value semantics of cv2.convertScaleAbs: `saturate_cast<uchar>(|alpha*v + beta|)`,
i.e. round the absolute value and clip at 255. -/
def convertScaleAbsPix (alpha beta : ℚ) (v : Nat) : Nat :=
  min (round |alpha * (v : ℚ) + beta|).toNat 255

/-- Transcription of `increase_contrast` (processor.py lines 129-133). -/
def increaseContrast (image : Img) (alpha beta : ℚ) : Img :=
  Img.mk (mapPixels (convertScaleAbsPix alpha beta) image.rows)

/-- Transcription of `four_point_transform` (processor.py lines 25-61).  The
perspective matrix computation and resampling are modelled by `CV.warpPix`;
the output raster has exactly `maxHeight × maxWidth` pixels. -/
def fourPointTransform (cv : CV) (image : Img) (pts : List (ℚ × ℚ)) : Img :=
  let rect := orderPoints pts
  let tl := rect.getD 0 (0, 0)
  let tr := rect.getD 1 (0, 0)
  let br := rect.getD 2 (0, 0)
  let bl := rect.getD 3 (0, 0)
  let dims := fourPointDims tl tr br bl
  let maxWidth := dims.1
  let maxHeight := dims.2
  let dst : List (ℚ × ℚ) :=
    [(0, 0), ((maxWidth : ℚ) - 1, 0), ((maxWidth : ℚ) - 1, (maxHeight : ℚ) - 1),
     (0, (maxHeight : ℚ) - 1)]
  Img.mk (buildGrid maxHeight maxWidth (channelsR image.rows)
    (cv.warpPix image.rows rect dst (maxWidth, maxHeight)))

/-- Stable insertion into a list sorted descending by `key`. -/
def insertDescBy {α : Type} (key : α → ℚ) (c : α) : List α → List α
  | [] => [c]
  | d :: ds => if key d ≤ key c then c :: d :: ds else d :: insertDescBy key c ds

/-- Stable descending sort by `key`, the semantics of
`sorted(cnts, key=cv2.contourArea, reverse=True)`. -/
def sortDescBy {α : Type} (key : α → ℚ) : List α → List α
  | [] => []
  | c :: cs => insertDescBy key c (sortDescBy key cs)

/-- Candidate contours of one edge-detection pass (processor.py lines 85-93):
Canny at thresholds `t`, 3×3 dilation (1 iteration), contour extraction, then
the 10 largest contours by area. -/
def candidatesOf (cv : CV) (gray : Img) (t : Nat × Nat) : List Contour :=
  let edged := cv.canny gray.rows t.1 t.2
  let edged := cv.dilate edged (3, 3) 1
  (sortDescBy cv.contourArea (cv.findContours edged)).take 10

/-- Acceptance test of one candidate contour (processor.py lines 95-105):
approximate at 2% of arc length; accept a 4-vertex polygon whose area is at
least `min_area * scale²`, returning it rescaled to full resolution. -/
def acceptOf (cv : CV) (scale minArea : ℚ) (c : Contour) : Option Quad :=
  let peri := cv.arcLength c true
  let approx := cv.approxPolyDP c ((2 / 100) * peri) true
  if approx.length = 4 then
    if cv.contourArea approx ≥ minArea * scale ^ 2 then
      some (approx.map (fun p => (p.1 / scale, p.2 / scale)))
    else none
  else none

/-- One full edge-detection-and-contour pass at Canny thresholds `t`:
the first accepted candidate, if any. -/
def contourPass (cv : CV) (gray : Img) (scale minArea : ℚ) (t : Nat × Nat) : Option Quad :=
  (candidatesOf cv gray t).findSome? (acceptOf cv scale minArea)

/-- The three Canny threshold pairs tried in order (processor.py line 84). -/
def cannyPairs : List (Nat × Nat) := [(30, 100), (50, 150), (75, 200)]

/-- The multi-threshold retry loop: first pass that accepts a quadrilateral. -/
def tryPasses (cv : CV) (gray : Img) (scale minArea : ℚ) : Option Quad :=
  cannyPairs.findSome? (contourPass cv gray scale minArea)

/-- Downscale factor of find_document_contour: `1000/h` when `h > 1000`, else 1. -/
def scaleOf (image : Img) : ℚ :=
  if 1000 < height image then 1000 / (height image : ℚ) else 1

/-- The working copy used for detection: the image resized to
`(int(w*scale), int(h*scale))` when `h > 1000`, else the image itself. -/
def procImgOf (cv : CV) (image : Img) : Img :=
  if 1000 < height image then
    resizeImg cv image (⌊(width image : ℚ) * scaleOf image⌋).toNat
      (⌊(height image : ℚ) * scaleOf image⌋).toNat
  else image

/-- `min_area = image_area * 0.2` (processor.py line 70). -/
def minAreaOf (image : Img) : ℚ := ((height image * width image : Nat) : ℚ) * (2 / 10)

/-- Transcription of `find_document_contour` (processor.py lines 63-107). -/
def findDocumentContour (cv : CV) (image : Img) : Except CVErr (Option Quad) := do
  let gray ← cvtColorBGR2GRAY (procImgOf cv image)
  let gray := gaussianBlurImg cv gray
  pure (tryPasses cv gray (scaleOf image) (minAreaOf image))

/-- The tonal-enhancement dispatch of `process_image` (lines 150-157) as a
standalone stage: the Enhancer applied directly to an image. -/
def enhanceStage (cv : CV) (enhance_mode : String) (output : Img) : Except CVErr Img :=
  if enhance_mode = "Grayscale" then
    cvtColorBGR2GRAY output
  else if enhance_mode = "Scan" then
    applyAdaptiveThreshold cv output
  else if enhance_mode = "High Contrast" then
    pure (increaseContrast output 2 (-50))
  else
    pure output

/-- Transcription of `process_image` (processor.py lines 135-157). -/
def processImage (cv : CV) (image : Img) (use_perspective : Bool) (enhance_mode : String) :
    Except CVErr Img := do
  let output := image
  let output ←
    if use_perspective then do
      let contour ← findDocumentContour cv image
      match contour with
      | some c => pure (fourPointTransform cv image c)
      | none => pure output
    else
      pure output
  if enhance_mode = "Grayscale" then
    cvtColorBGR2GRAY output
  else if enhance_mode = "Scan" then
    applyAdaptiveThreshold cv output
  else if enhance_mode = "High Contrast" then
    pure (increaseContrast output 2 (-50))
  else
    pure output

/-- A trivial concrete instance of the OpenCV primitives, used to evaluate the
pipeline on explicit inputs. -/
def cvZ : CV where
  resizePix := fun _ _ _ _ _ => 0
  gaussianBlurPix := fun _ _ _ _ _ _ => 0
  clahePix := fun _ _ _ _ _ _ => 0
  bilateralPix := fun _ _ _ _ _ _ _ => 0
  adaptiveMeanPix := fun _ _ _ _ => 0
  canny := fun _ _ _ => []
  dilate := fun _ _ _ => []
  findContours := fun _ => []
  contourArea := fun _ => 0
  arcLength := fun _ _ => 0
  approxPolyDP := fun _ _ _ => []
  warpPix := fun _ _ _ _ _ _ _ => 0

/-- A concrete 1×1 3-channel (BGR) image. -/
def imgC3 : Img := Img.mk [[[10, 20, 30]]]

/-- A concrete 1×1 single-channel (grayscale) image. -/
def imgG1 : Img := Img.mk [[[100]]]

/-- Grayscale conversion of `imgC3`: fixed-point luma of (B,G,R)=(10,20,30) is 22. -/
def grayC3 : Img := Img.mk [[[22]]]

/-- Scan-mode output of `imgC3` under `cvZ` (everything binarizes to 255). -/
def scanC3 : Img := Img.mk [[[255]]]

/-! Helper lemmas. -/

/-- Bind of a successful `Except` computation reduces to the continuation. -/
lemma bindOkEq {ε α β : Type} (a : α) (f : α → Except ε β) :
    (Except.ok a >>= f : Except ε β) = f a := rfl

/-- Bind of a failed `Except` computation propagates the error. -/
lemma bindErrEq {ε α β : Type} (e : ε) (f : α → Except ε β) :
    (Except.error e >>= f : Except ε β) = Except.error e := rfl

lemma length_mapIdxFrom {α β : Type} (f : Nat → α → β) :
    ∀ (n : Nat) (l : List α), (mapIdxFrom f n l).length = l.length
  | _, [] => rfl
  | n, _ :: as => by simp [mapIdxFrom, length_mapIdxFrom f (n + 1) as]

lemma findSomeEqNoneIff {α β : Type} (f : α → Option β) (l : List α) :
    l.findSome? f = none ↔ ∀ a ∈ l, f a = none := by
  induction l with
  | nil => simp [List.findSome?]
  | cons a as ih =>
    cases h : f a with
    | some b => simp [List.findSome?, h]
    | none => simp [List.findSome?, h, ih]

lemma findSomeEqSomeIff {α β : Type} (f : α → Option β) (l : List α) (b : β) :
    l.findSome? f = some b ↔
      ∃ l₁ a l₂, l = l₁ ++ a :: l₂ ∧ (∀ x ∈ l₁, f x = none) ∧ f a = some b := by
  induction l with
  | nil =>
    simp only [List.findSome?]
    constructor
    · intro h; exact absurd h (by simp)
    · rintro ⟨l₁, a, l₂, h, -, -⟩
      exact absurd h (by simp)
  | cons a as ih =>
    cases h : f a with
    | some c =>
      simp only [List.findSome?, h]
      constructor
      · intro hc
        exact ⟨[], a, as, rfl, by simp, by rw [h, hc]⟩
      · rintro ⟨l₁, x, l₂, hdec, hpre, hx⟩
        cases l₁ with
        | nil =>
          simp only [List.nil_append, List.cons.injEq] at hdec
          rw [← hdec.1] at hx
          rw [h] at hx
          exact hx
        | cons y l₁ =>
          simp only [List.cons_append, List.cons.injEq] at hdec
          have : f a = none := hdec.1 ▸ hpre y (by simp)
          rw [this] at h
          exact Option.noConfusion h
    | none =>
      simp only [List.findSome?, h, ih]
      constructor
      · rintro ⟨l₁, x, l₂, hdec, hpre, hx⟩
        refine ⟨a :: l₁, x, l₂, by rw [hdec, List.cons_append], ?_, hx⟩
        intro y hy
        rcases List.mem_cons.mp hy with hy | hy
        · rw [hy]; exact h
        · exact hpre y hy
      · rintro ⟨l₁, x, l₂, hdec, hpre, hx⟩
        cases l₁ with
        | nil =>
          simp only [List.nil_append, List.cons.injEq] at hdec
          rw [← hdec.1] at hx
          rw [h] at hx
          exact Option.noConfusion hx
        | cons y l₁ =>
          simp only [List.cons_append, List.cons.injEq] at hdec
          exact ⟨l₁, x, l₂, hdec.2, fun z hz => hpre z (by simp [hz]), hx⟩

/-- When `p` is the strict minimizer of `f` on `l` (every other member is
strictly larger), `np.argmin` selects a position holding `p`. -/
lemma getD_argminList (f : ℚ × ℚ → ℚ) (l : List (ℚ × ℚ)) (p : ℚ × ℚ)
    (hp : p ∈ l) (hmin : ∀ q ∈ l, q ≠ p → f p < f q) :
    l.getD (argminList (l.map f)) (0, 0) = p := by
  induction l with
  | nil => exact absurd hp (by simp)
  | cons a as ih =>
    simp only [List.map_cons, argminList]
    by_cases hall : ∀ y ∈ as.map f, f a ≤ y
    · rw [if_pos hall]
      by_cases hap : a = p
      · simpa using hap
      · rcases List.mem_cons.mp hp with hp' | hp'
        · exact absurd hp'.symm hap
        · have h1 : f p < f a := hmin a (by simp) hap
          have h2 : f a ≤ f p := hall (f p) (List.mem_map.mpr ⟨p, hp', rfl⟩)
          exact absurd h1 (not_lt.mpr h2)
    · rw [if_neg hall]
      push_neg at hall
      rcases hall with ⟨y, hy, hya⟩
      rcases List.mem_map.mp hy with ⟨r, hr, rfl⟩
      have hpa : p ≠ a := by
        intro hpa
        by_cases hrp : r = p
        · rw [hrp] at hya
          rw [← hpa] at hya
          exact absurd le_rfl (not_le.mpr hya)
        · have := hmin r (by simp [hr]) hrp
          rw [← hpa] at hya
          exact absurd (lt_trans this hya) (lt_irrefl _)
      have hp' : p ∈ as := by
        rcases List.mem_cons.mp hp with h | h
        · exact absurd h hpa
        · exact h
      simpa using ih hp' (fun q hq hqp => hmin q (by simp [hq]) hqp)

/-- When `p` is the strict maximizer of `f` on `l`, `np.argmax` selects a
position holding `p`. -/
lemma getD_argmaxList (f : ℚ × ℚ → ℚ) (l : List (ℚ × ℚ)) (p : ℚ × ℚ)
    (hp : p ∈ l) (hmax : ∀ q ∈ l, q ≠ p → f q < f p) :
    l.getD (argmaxList (l.map f)) (0, 0) = p := by
  have h := getD_argminList (fun q => -(f q)) l p hp
    (fun q hq hqp => neg_lt_neg (hmax q hq hqp))
  unfold argmaxList
  rw [List.map_map]
  simpa [Function.comp] using h

lemma channelsR_pointOp (f : Nat → Nat → Nat → Nat) (r : R) :
    channelsR (pointOp f r) = channelsR r := by
  cases r with
  | nil => rfl
  | cons row rest =>
    cases row with
    | nil => rfl
    | cons px prest =>
      simp [pointOp, mapIdx, mapIdxFrom, channelsR, length_mapIdxFrom]

lemma channelsR_mapPixels (f : Nat → Nat) (r : R) :
    channelsR (mapPixels f r) = channelsR r := by
  cases r with
  | nil => rfl
  | cons row rest =>
    cases row with
    | nil => rfl
    | cons px prest => simp [mapPixels, channelsR]

lemma channelsR_threshRowsOf (cv : CV) (blockSize : Nat) (cConst : ℚ) (maxVal : Nat) (r : R) :
    channelsR (threshRowsOf cv blockSize cConst maxVal r) = channelsR r := by
  cases r with
  | nil => rfl
  | cons row rest =>
    cases row with
    | nil => rfl
    | cons px prest =>
      simp only [threshRowsOf, mapIdx, mapIdxFrom, channelsR, List.headD_cons, List.length_map]

lemma channelsR_grayRowsOf (r : R) (h : channelsR r = 3 ∨ channelsR r = 4) :
    channelsR (grayRowsOf r) = 1 := by
  cases r with
  | nil => simp [channelsR] at h
  | cons row rest =>
    cases row with
    | nil => simp [channelsR] at h
    | cons px prest => simp [grayRowsOf, channelsR]

lemma sqDist_comm (p q : ℚ × ℚ) : sqDist p q = sqDist q p := by
  unfold sqDist; ring

lemma sqDist_nonneg (p q : ℚ × ℚ) : 0 ≤ sqDist p q := by
  unfold sqDist; positivity

/-- For `s ≥ 0`, the executable `Nat.sqrt ⌊s⌋` equals `⌊√s⌋`: this justifies
`intSqrtDist` as the exact-arithmetic meaning of `int(np.sqrt(s))`. -/
lemma intSqrt_eq_floor_sqrt (s : ℚ) (hs : 0 ≤ s) :
    ((Nat.sqrt (⌊s⌋).toNat : ℤ)) = ⌊Real.sqrt ((s : ℝ))⌋ := by
  have hsR : (0 : ℝ) ≤ (s : ℝ) := by exact_mod_cast hs
  have hfl : (0 : ℤ) ≤ ⌊s⌋ := Int.floor_nonneg.mpr hs
  have hmz : ((⌊s⌋).toNat : ℤ) = ⌊s⌋ := Int.toNat_of_nonneg hfl
  have hmle : (((⌊s⌋).toNat : ℝ)) ≤ (s : ℝ) := by
    have h1 : ((⌊s⌋ : ℚ)) ≤ s := Int.floor_le s
    have h2 : (((⌊s⌋).toNat : ℚ)) = ((⌊s⌋ : ℚ)) := by exact_mod_cast hmz
    rw [← h2] at h1
    exact_mod_cast h1
  have hslt : (s : ℝ) < ((⌊s⌋).toNat : ℝ) + 1 := by
    have h1 : s < ((⌊s⌋ : ℚ)) + 1 := Int.lt_floor_add_one s
    have h2 : (((⌊s⌋).toNat : ℚ)) = ((⌊s⌋ : ℚ)) := by exact_mod_cast hmz
    rw [← h2] at h1
    exact_mod_cast h1
  have h1 : ((Nat.sqrt (⌊s⌋).toNat : ℝ)) ≤ Real.sqrt (s : ℝ) := by
    rw [Real.le_sqrt (by positivity) hsR]
    calc ((Nat.sqrt (⌊s⌋).toNat : ℝ)) ^ 2
        = ((Nat.sqrt (⌊s⌋).toNat ^ 2 : ℕ) : ℝ) := by push_cast; ring
      _ ≤ (((⌊s⌋).toNat : ℝ)) := by exact_mod_cast Nat.sqrt_le' (⌊s⌋).toNat
      _ ≤ (s : ℝ) := hmle
  have h2 : Real.sqrt (s : ℝ) < (Nat.sqrt (⌊s⌋).toNat : ℝ) + 1 := by
    rw [Real.sqrt_lt' (by positivity)]
    have h5 : (⌊s⌋).toNat + 1 ≤ (Nat.sqrt (⌊s⌋).toNat + 1) ^ 2 :=
      Nat.succ_le_of_lt (Nat.lt_succ_sqrt' (⌊s⌋).toNat)
    calc (s : ℝ) < ((⌊s⌋).toNat : ℝ) + 1 := hslt
      _ = (((⌊s⌋).toNat + 1 : ℕ) : ℝ) := by push_cast; ring
      _ ≤ (((Nat.sqrt (⌊s⌋).toNat + 1) ^ 2 : ℕ) : ℝ) := by exact_mod_cast h5
      _ = ((Nat.sqrt (⌊s⌋).toNat : ℝ) + 1) ^ 2 := by push_cast; ring
  symm
  rw [Int.floor_eq_iff]
  constructor
  · exact_mod_cast h1
  · push_cast
    exact h2

lemma maxIntSqrt (a b : ℚ) (ha : 0 ≤ a) (hb : 0 ≤ b) :
    ((max (Nat.sqrt (⌊a⌋).toNat) (Nat.sqrt (⌊b⌋).toNat) : ℕ) : ℤ) =
      ⌊max (Real.sqrt ((a : ℝ))) (Real.sqrt ((b : ℝ)))⌋ := by
  rw [Nat.cast_max, intSqrt_eq_floor_sqrt a ha, intSqrt_eq_floor_sqrt b hb]
  exact (Int.floor_mono.map_max).symm

lemma intSqrtDist_comm (p q : ℚ × ℚ) : intSqrtDist p q = intSqrtDist q p := by
  unfold intSqrtDist
  rw [sqDist_comm]

/-- One candidate is accepted exactly when its simplified polygon has 4
vertices and its area, rescaled to full resolution, reaches the minimum. -/
lemma acceptOf_eq_some_iff (cv : CV) (scale minArea : ℚ) (c : Contour) (q : Quad)
    (hs : 0 < scale) :
    acceptOf cv scale minArea c = some q ↔
      (cv.approxPolyDP c ((2 / 100) * cv.arcLength c true) true).length = 4 ∧
      minArea ≤ cv.contourArea (cv.approxPolyDP c ((2 / 100) * cv.arcLength c true) true) / scale ^ 2 ∧
      q = (cv.approxPolyDP c ((2 / 100) * cv.arcLength c true) true).map
            (fun p => (p.1 / scale, p.2 / scale)) := by
  have hs2 : (0 : ℚ) < scale ^ 2 := by positivity
  unfold acceptOf
  by_cases h4 : (cv.approxPolyDP c ((2 / 100) * cv.arcLength c true) true).length = 4
  · rw [if_pos h4]
    by_cases harea : cv.contourArea (cv.approxPolyDP c ((2 / 100) * cv.arcLength c true) true) ≥
        minArea * scale ^ 2
    · rw [if_pos harea]
      have : minArea ≤ cv.contourArea
          (cv.approxPolyDP c ((2 / 100) * cv.arcLength c true) true) / scale ^ 2 :=
        (le_div_iff hs2).mpr harea
      simp [h4, this, eq_comm]
    · rw [if_neg harea]
      have : ¬ minArea ≤ cv.contourArea
          (cv.approxPolyDP c ((2 / 100) * cv.arcLength c true) true) / scale ^ 2 := by
        intro hcontra
        exact harea ((le_div_iff hs2).mp hcontra)
      simp [this]
  · rw [if_neg h4]
    simp [h4]

/-- With auto-crop disabled, the pipeline is exactly the enhancement dispatch
applied to the unmodified input (the working image stays `image.copy()`). -/
lemma processImage_false (cv : CV) (img : Img) (mode : String) :
    processImage cv img false mode = enhanceStage cv mode img := rfl

/-! Claim theorems. -/

/-- Claim C1 (amended): `order_points` assigns the point with minimum x+y as
top-left and maximum x+y as bottom-right; since `np.diff` computes y−x, the
point with minimum y−x (equivalently maximum x−y) is assigned top-right and
the point with maximum y−x (minimum x−y) is assigned bottom-left.  When each
of these four extrema is attained by a unique point of the set, every
permutation of the 4 points yields the same assignment. -/
theorem orderPoints_canonical (pts pts2 : List (ℚ × ℚ)) (ptl ptr pbr pbl : ℚ × ℚ)
    (hperm : pts2.Perm pts)
    (htl : ptl ∈ pts ∧ ∀ q ∈ pts, q ≠ ptl → ptl.1 + ptl.2 < q.1 + q.2)
    (htr : ptr ∈ pts ∧ ∀ q ∈ pts, q ≠ ptr → ptr.2 - ptr.1 < q.2 - q.1)
    (hbr : pbr ∈ pts ∧ ∀ q ∈ pts, q ≠ pbr → q.1 + q.2 < pbr.1 + pbr.2)
    (hbl : pbl ∈ pts ∧ ∀ q ∈ pts, q ≠ pbl → q.2 - q.1 < pbl.2 - pbl.1) :
    orderPoints pts2 = [ptl, ptr, pbr, pbl] := by
  have hmem : ∀ x : ℚ × ℚ, x ∈ pts2 ↔ x ∈ pts := fun x => hperm.mem_iff
  have h1 := getD_argminList (fun p => p.1 + p.2) pts2 ptl ((hmem ptl).mpr htl.1)
    (fun q hq hqp => htl.2 q ((hmem q).mp hq) hqp)
  have h2 := getD_argminList (fun p => p.2 - p.1) pts2 ptr ((hmem ptr).mpr htr.1)
    (fun q hq hqp => htr.2 q ((hmem q).mp hq) hqp)
  have h3 := getD_argmaxList (fun p => p.1 + p.2) pts2 pbr ((hmem pbr).mpr hbr.1)
    (fun q hq hqp => hbr.2 q ((hmem q).mp hq) hqp)
  have h4 := getD_argmaxList (fun p => p.2 - p.1) pts2 pbl ((hmem pbl).mpr hbl.1)
    (fun q hq hqp => hbl.2 q ((hmem q).mp hq) hqp)
  simp only [orderPoints]
  rw [h1, h2, h3, h4]

/-- Witness for C1: the axis-aligned square, fed in a rotated permutation,
is ordered into the canonical top-left, top-right, bottom-right, bottom-left list. -/
theorem orderPoints_canonical_witness :
    List.Perm [((10:ℚ),(10:ℚ)), (0,10), (0,0), (10,0)] [((0:ℚ),(0:ℚ)), (10,0), (10,10), (0,10)] ∧
    orderPoints [((10:ℚ),(10:ℚ)), (0,10), (0,0), (10,0)] = [(0,0), (10,0), (10,10), (0,10)] := by
  constructor
  · decide
  · exact orderPoints_canonical [((0:ℚ),(0:ℚ)), (10,0), (10,10), (0,10)]
      [((10:ℚ),(10:ℚ)), (0,10), (0,0), (10,0)] (0,0) (10,0) (10,10) (0,10)
      (by decide)
      ⟨by norm_num, by intro q hq hne; fin_cases hq <;> norm_num <;> simp_all⟩
      ⟨by norm_num, by intro q hq hne; fin_cases hq <;> norm_num <;> simp_all⟩
      ⟨by norm_num, by intro q hq hne; fin_cases hq <;> norm_num <;> simp_all⟩
      ⟨by norm_num, by intro q hq hne; fin_cases hq <;> norm_num <;> simp_all⟩

/-- Counterexample for C1 as stated: on the square, the unique point with
minimum x−y is (0, 10) (index 3), but `order_points` assigns (10, 0) as
top-right (rect[1]); the claim's x−y rule names the wrong corner. -/
theorem orderPoints_claim_cex :
    (orderPoints [((0:ℚ),(0:ℚ)), (10,0), (10,10), (0,10)]).getD 1 (0, 0) = (10, 0) ∧
    argminList ([((0:ℚ),(0:ℚ)), (10,0), (10,10), (0,10)].map (fun p => p.1 - p.2)) = 3 ∧
    [((0:ℚ),(0:ℚ)), (10,0), (10,10), (0,10)].getD 3 (0, 0) = (0, 10) ∧
    ((10:ℚ), (0:ℚ)) ≠ ((0:ℚ), (10:ℚ)) := by
  refine ⟨?_, ?_, by norm_num, by norm_num⟩
  · norm_num [orderPoints, argminList, argmaxList]
  · norm_num [argminList]

/-- Claim C2 (amended): HighContrast applies cv2.convertScaleAbs, which takes
an absolute value before saturating: each pixel v maps to min(|2v − 50|, 255),
applied per channel to the working image.  Values at or above 153 saturate to
255, but values below 25 map to 50 − 2v (the absolute value of the negative
intermediate), not to 0. -/
theorem increaseContrast_formula (v : Nat) (cv : CV) (img : Img) :
    convertScaleAbsPix 2 (-50) v = min (Int.natAbs (2 * (v : ℤ) - 50)) 255 ∧
    (153 ≤ v → convertScaleAbsPix 2 (-50) v = 255) ∧
    (v < 25 → convertScaleAbsPix 2 (-50) v = 50 - 2 * v) ∧
    processImage cv img false ("High Contrast") =
      Except.ok (Img.mk (mapPixels (convertScaleAbsPix 2 (-50)) img.rows)) := by
  have hkey : convertScaleAbsPix 2 (-50) v = min (Int.natAbs (2 * (v : ℤ) - 50)) 255 := by
    unfold convertScaleAbsPix
    have hcast : (2 * (v : ℚ) + (-50)) = (((2 * (v : ℤ) - 50 : ℤ)) : ℚ) := by push_cast; ring
    rw [hcast, ← Int.cast_abs, round_intCast, Int.abs_eq_natAbs]
    congr 1
  refine ⟨hkey, ?_, ?_, ?_⟩
  · intro h
    rw [hkey]
    omega
  · intro h
    rw [hkey]
    omega
  · rfl

/-- Witness for C2: at v = 160 the formula saturates to 255, and at v = 0 the
output is 50 (= 50 − 2·0). -/
theorem increaseContrast_formula_witness :
    (153 ≤ 160 ∧ convertScaleAbsPix 2 (-50) 160 = 255) ∧
    (0 < 25 ∧ convertScaleAbsPix 2 (-50) 0 = 50 - 2 * 0) ∧
    convertScaleAbsPix 2 (-50) 160 = min (Int.natAbs (2 * (160 : ℤ) - 50)) 255 :=
  ⟨⟨by decide, (increaseContrast_formula 160 cvZ imgC3).2.1 (by decide)⟩,
   ⟨by decide, (increaseContrast_formula 0 cvZ imgC3).2.2.1 (by decide)⟩,
   (increaseContrast_formula 160 cvZ imgC3).1⟩

/-- Counterexample for C2 as stated: the claim's clamp(2·0 − 50, 0, 255) = 0,
but convertScaleAbs maps pixel value 0 to |2·0 − 50| = 50. -/
theorem increaseContrast_claim_cex :
    convertScaleAbsPix 2 (-50) 0 = 50 ∧ (50 : Nat) ≠ 0 := by
  constructor
  · norm_num [convertScaleAbsPix]
    decide
  · decide

/-- Claim C3 (amended): with auto-crop off, Original returns the input
unchanged and HighContrast preserves the channel count, for any input; on
3-channel input every mode succeeds, with Grayscale and Scan producing
single-channel output.  Grayscale and Scan do not accept single-channel
input: they begin with cv2.cvtColor(·, COLOR_BGR2GRAY), which rejects it
(see the counterexample). -/
theorem enhancer_channels (cv : CV) (img : Img) (h3 : channels img = 3) :
    processImage cv img false ("Original") = Except.ok img ∧
    processImage cv img false ("High Contrast") = Except.ok (increaseContrast img 2 (-50)) ∧
    channels (increaseContrast img 2 (-50)) = channels img ∧
    processImage cv img false ("Grayscale") = Except.ok (Img.mk (grayRowsOf img.rows)) ∧
    channels (Img.mk (grayRowsOf img.rows)) = 1 ∧
    (∃ s, processImage cv img false ("Scan") = Except.ok s ∧ channels s = 1) := by
  have h3r : channelsR img.rows = 3 := h3
  have hcvt : cvtColorBGR2GRAY img = Except.ok (Img.mk (grayRowsOf img.rows)) := by
    unfold cvtColorBGR2GRAY
    rw [if_pos (Or.inl h3r)]
  have hgray1 : channelsR (grayRowsOf img.rows) = 1 := channelsR_grayRowsOf img.rows (Or.inl h3r)
  refine ⟨rfl, rfl, ?_, ?_, hgray1, ?_⟩
  · exact channelsR_mapPixels (convertScaleAbsPix 2 (-50)) img.rows
  · rw [processImage_false]
    show cvtColorBGR2GRAY img = _
    exact hcvt
  · refine ⟨Img.mk (threshRowsOf cv 11 2 255
      (bilateralImg cv (claheImg cv (Img.mk (grayRowsOf img.rows)))).rows), ?_, ?_⟩
    · rw [processImage_false]
      show applyAdaptiveThreshold cv img = _
      unfold applyAdaptiveThreshold
      rw [hcvt, bindOkEq]
      unfold adaptiveThresholdImg
      rw [if_pos]
      simp only [bilateralImg, claheImg, channelsR_pointOp]
      exact hgray1
    · show channelsR (threshRowsOf cv 11 2 255 _) = 1
      rw [channelsR_threshRowsOf]
      simp only [bilateralImg, claheImg, channelsR_pointOp]
      exact hgray1

/-- Witness for C3 at the concrete 3-channel image `imgC3`. -/
theorem enhancer_channels_witness :
    channels imgC3 = 3 ∧
    (processImage cvZ imgC3 false ("Original") = Except.ok imgC3 ∧
     processImage cvZ imgC3 false ("High Contrast") = Except.ok (increaseContrast imgC3 2 (-50)) ∧
     channels (increaseContrast imgC3 2 (-50)) = channels imgC3 ∧
     processImage cvZ imgC3 false ("Grayscale") = Except.ok (Img.mk (grayRowsOf imgC3.rows)) ∧
     channels (Img.mk (grayRowsOf imgC3.rows)) = 1 ∧
     (∃ s, processImage cvZ imgC3 false ("Scan") = Except.ok s ∧ channels s = 1)) :=
  ⟨by decide, enhancer_channels cvZ imgC3 (by decide)⟩

/-- Counterexample for C3 as stated: on the single-channel image `imgG1`,
Grayscale and Scan modes fail with a channel error (so not every mode accepts
grayscale input), while Original and HighContrast accept it. -/
theorem enhancer_grayscale_input_cex :
    channels imgG1 = 1 ∧
    processImage cvZ imgG1 false ("Grayscale") = Except.error CVErr.invalidChannels ∧
    processImage cvZ imgG1 false ("Scan") = Except.error CVErr.invalidChannels ∧
    processImage cvZ imgG1 false ("Original") = Except.ok imgG1 ∧
    processImage cvZ imgG1 false ("High Contrast") = Except.ok (Img.mk [[[150]]]) := by
  refine ⟨rfl, rfl, rfl, rfl, ?_⟩
  rw [processImage_false]
  show Except.ok (increaseContrast imgG1 2 (-50)) = _
  norm_num [increaseContrast, mapPixels, imgG1, convertScaleAbsPix]
  decide

/-- Claim C4: when the locator reports NotFound (returns None) with
use_perspective enabled, process_image returns exactly the selected
enhancement applied to the unmodified original image, and the NotFound case
itself raises no error (the result is whatever the enhancement stage yields). -/
theorem processImage_notfound_fallback (cv : CV) (img : Img) (mode : String)
    (hnf : findDocumentContour cv img = Except.ok none) :
    processImage cv img true mode = enhanceStage cv mode img := by
  simp only [processImage]
  rw [hnf]
  rfl

/-- Witness for C4: under the trivial primitives no contour is found on
`imgC3`, and the pipeline output equals the enhancement of the original. -/
theorem processImage_notfound_fallback_witness :
    findDocumentContour cvZ imgC3 = Except.ok none ∧
    processImage cvZ imgC3 true ("Scan") = enhanceStage cvZ ("Scan") imgC3 := by
  have h : findDocumentContour cvZ imgC3 = Except.ok none := by
    norm_num [findDocumentContour, procImgOf, height, imgC3, cvtColorBGR2GRAY, channelsR,
      grayRowsOf, grayFix, gaussianBlurImg, pointOp, mapIdx, mapIdxFrom, tryPasses, cannyPairs,
      contourPass, candidatesOf, cvZ, sortDescBy, acceptOf, List.findSome?, bindOkEq]
  exact ⟨h, processImage_notfound_fallback cvZ imgC3 ("Scan") h⟩

/-- Claim C10: any mode string other than "Grayscale", "Scan" and
"High Contrast" (including the spelling "HighContrast" without the space)
falls through the dispatch: the working image is returned unchanged, exactly
as in Original mode. -/
theorem processImage_unknown_mode (cv : CV) (img : Img) (usp : Bool) (mode : String)
    (h1 : mode ≠ "Grayscale") (h2 : mode ≠ "Scan") (h3 : mode ≠ "High Contrast") :
    processImage cv img usp mode = processImage cv img usp ("Original") ∧
    processImage cv img false mode = Except.ok img := by
  have hdisp : ∀ out : Img, enhanceStage cv mode out = Except.ok out := by
    intro out
    unfold enhanceStage
    rw [if_neg h1, if_neg h2, if_neg h3]
    rfl
  constructor
  · cases usp with
    | false =>
      rw [processImage_false, processImage_false, hdisp]
      rfl
    | true =>
      simp only [processImage]
      refine congrArg (Bind.bind (findDocumentContour cv img)) (funext fun contour => ?_)
      cases contour with
      | some c =>
        show enhanceStage cv mode (fourPointTransform cv img c) =
          enhanceStage cv ("Original") (fourPointTransform cv img c)
        rw [hdisp]
        rfl
      | none =>
        show enhanceStage cv mode img = enhanceStage cv ("Original") img
        rw [hdisp]
        rfl
  · rw [processImage_false, hdisp]

/-- Witness for C10 at the unrecognized spelling "HighContrast". -/
theorem processImage_unknown_mode_witness :
    (("HighContrast" : String) ≠ "Grayscale" ∧ ("HighContrast" : String) ≠ "Scan" ∧
      ("HighContrast" : String) ≠ "High Contrast") ∧
    processImage cvZ imgC3 false ("HighContrast") = processImage cvZ imgC3 false ("Original") ∧
    processImage cvZ imgC3 false ("HighContrast") = Except.ok imgC3 :=
  ⟨⟨by decide, by decide, by decide⟩,
   (processImage_unknown_mode cvZ imgC3 false ("HighContrast")
      (by decide) (by decide) (by decide)).1,
   (processImage_unknown_mode cvZ imgC3 false ("HighContrast")
      (by decide) (by decide) (by decide)).2⟩

/-- Claim C5 (code evaluation at the failing input): for four coincident
corner points both target dimensions compute to 0 and `four_point_transform`
returns a 0×0 raster; there is no degeneracy check and no error path in the
Rectifier, contradicting the required explicit rejection. -/
theorem fourPointTransform_degenerate_no_error :
    height (fourPointTransform cvZ imgC3 [((5:ℚ),(5:ℚ)), (5,5), (5,5), (5,5)]) = 0 ∧
    width (fourPointTransform cvZ imgC3 [((5:ℚ),(5:ℚ)), (5,5), (5,5), (5,5)]) = 0 ∧
    fourPointDims ((5:ℚ),(5:ℚ)) (5,5) (5,5) (5,5) = (0, 0) := by
  refine ⟨?_, ?_, ?_⟩ <;>
    norm_num [fourPointTransform, fourPointDims, orderPoints, argminList, argmaxList,
      intSqrtDist, sqDist, height, width, buildGrid, channelsR]

/-- Claim C8: the Rectifier's target width is the floor of the larger of the
tl–tr and bl–br Euclidean distances, and its height the floor of the larger
of the tl–bl and tr–br distances; flooring each distance and then taking the
max (as the code does) equals flooring the max. -/
theorem fourPointDims_floor_max (tl tr br bl : ℚ × ℚ) :
    ((fourPointDims tl tr br bl).1 : ℤ) =
      ⌊max (Real.sqrt ((sqDist tl tr : ℚ) : ℝ)) (Real.sqrt ((sqDist bl br : ℚ) : ℝ))⌋ ∧
    ((fourPointDims tl tr br bl).2 : ℤ) =
      ⌊max (Real.sqrt ((sqDist tl bl : ℚ) : ℝ)) (Real.sqrt ((sqDist tr br : ℚ) : ℝ))⌋ ∧
    (fourPointDims tl tr br bl).1 = max (intSqrtDist tl tr) (intSqrtDist bl br) ∧
    (fourPointDims tl tr br bl).2 = max (intSqrtDist tl bl) (intSqrtDist tr br) := by
  have hw : (fourPointDims tl tr br bl).1 = max (intSqrtDist tl tr) (intSqrtDist bl br) := by
    show max (intSqrtDist br bl) (intSqrtDist tr tl) = _
    rw [intSqrtDist_comm br bl, intSqrtDist_comm tr tl, max_comm]
  have hh : (fourPointDims tl tr br bl).2 = max (intSqrtDist tl bl) (intSqrtDist tr br) := by
    show max (intSqrtDist tr br) (intSqrtDist tl bl) = _
    rw [max_comm]
  refine ⟨?_, ?_, hw, hh⟩
  · rw [hw]
    exact maxIntSqrt (sqDist tl tr) (sqDist bl br) (sqDist_nonneg _ _) (sqDist_nonneg _ _)
  · rw [hh]
    exact maxIntSqrt (sqDist tl bl) (sqDist tr br) (sqDist_nonneg _ _) (sqDist_nonneg _ _)

/-- Claim C9 (amended): Scan is not idempotent — its output is single-channel,
and applying the Scan enhancement to any of its own outputs fails with a
channel error (cv2.cvtColor BGR2GRAY rejects single-channel input), so Scan
applied twice never equals Scan applied once. -/
theorem applyAdaptiveThreshold_rejects_own_output (cv : CV) (img out : Img)
    (hok : applyAdaptiveThreshold cv img = Except.ok out) :
    channels out = 1 ∧ applyAdaptiveThreshold cv out = Except.error CVErr.invalidChannels := by
  unfold applyAdaptiveThreshold at hok
  cases hc : cvtColorBGR2GRAY img with
  | error e =>
    rw [hc, bindErrEq] at hok
    exact absurd hok (by simp)
  | ok g =>
    rw [hc, bindOkEq] at hok
    have hg1 : channelsR g.rows = 1 := by
      unfold cvtColorBGR2GRAY at hc
      by_cases hcond : channelsR img.rows = 3 ∨ channelsR img.rows = 4
      · rw [if_pos hcond] at hc
        rw [← Except.ok.inj hc]
        exact channelsR_grayRowsOf img.rows hcond
      · rw [if_neg hcond] at hc
        exact absurd hc (by simp)
    unfold adaptiveThresholdImg at hok
    have hfil : channelsR (bilateralImg cv (claheImg cv g)).rows = 1 := by
      simp only [bilateralImg, claheImg, channelsR_pointOp]
      exact hg1
    rw [if_pos hfil] at hok
    have hch : channels out = 1 := by
      rw [← Except.ok.inj hok]
      show channelsR (threshRowsOf cv 11 2 255 _) = 1
      rw [channelsR_threshRowsOf]
      exact hfil
    refine ⟨hch, ?_⟩
    unfold applyAdaptiveThreshold
    have herr : cvtColorBGR2GRAY out = Except.error CVErr.invalidChannels := by
      unfold cvtColorBGR2GRAY
      rw [if_neg]
      intro hcontra
      have hcc : channelsR out.rows = 1 := hch
      rcases hcontra with h | h
      · rw [hcc] at h
        exact absurd h (by norm_num)
      · rw [hcc] at h
        exact absurd h (by norm_num)
    rw [herr, bindErrEq]

/-- Witness for C9: Scan succeeds on `imgC3` producing `scanC3`, which is
single-channel, and a second Scan on it errors. -/
theorem applyAdaptiveThreshold_rejects_own_output_witness :
    applyAdaptiveThreshold cvZ imgC3 = Except.ok scanC3 ∧
    channels scanC3 = 1 ∧
    applyAdaptiveThreshold cvZ scanC3 = Except.error CVErr.invalidChannels := by
  have h : applyAdaptiveThreshold cvZ imgC3 = Except.ok scanC3 := by
    norm_num [applyAdaptiveThreshold, cvtColorBGR2GRAY, channelsR, imgC3, scanC3, grayRowsOf,
      grayFix, claheImg, bilateralImg, adaptiveThresholdImg, threshRowsOf, pointOp, mapIdx,
      mapIdxFrom, cvZ, bindOkEq]
  exact ⟨h, (applyAdaptiveThreshold_rejects_own_output cvZ imgC3 scanC3 h).1,
    (applyAdaptiveThreshold_rejects_own_output cvZ imgC3 scanC3 h).2⟩

/-- Counterexample for C9 as stated: on `imgC3`, one Scan yields `scanC3`
but the second Scan raises a channel error instead of returning `scanC3`
again, so Scan∘Scan ≠ Scan. -/
theorem scan_twice_cex :
    applyAdaptiveThreshold cvZ imgC3 = Except.ok scanC3 ∧
    applyAdaptiveThreshold cvZ scanC3 = Except.error CVErr.invalidChannels ∧
    (Except.ok scanC3 : Except CVErr Img) ≠ Except.error CVErr.invalidChannels := by
  refine ⟨?_, rfl, by decide⟩
  norm_num [applyAdaptiveThreshold, cvtColorBGR2GRAY, channelsR, imgC3, scanC3, grayRowsOf,
    grayFix, claheImg, bilateralImg, adaptiveThresholdImg, threshRowsOf, pointOp, mapIdx,
    mapIdxFrom, cvZ, bindOkEq]

/-- Claim C6: within one edge-detection pass over a full image of
dimensions h × w, a candidate among the top-10 largest contours is accepted
exactly when its 2%-of-arc-length polygon approximation has 4 vertices and
its enclosed area rescaled to full resolution (area / scale²) is at least
20% of the image area; the pass returns the first such polygon (rescaled),
and a 4-vertex candidate below the threshold is rejected. -/
theorem contourPass_acceptance (cv : CV) (gray : Img) (scale : ℚ) (h w : Nat) (t : Nat × Nat)
    (q : Quad) (hs : 0 < scale) :
    (contourPass cv gray scale (((h * w : Nat) : ℚ) * (2 / 10)) t = some q ↔
      ∃ l₁ c l₂, candidatesOf cv gray t = l₁ ++ c :: l₂ ∧
        (∀ x ∈ l₁, acceptOf cv scale (((h * w : Nat) : ℚ) * (2 / 10)) x = none) ∧
        (cv.approxPolyDP c ((2 / 100) * cv.arcLength c true) true).length = 4 ∧
        ((h * w : Nat) : ℚ) * (2 / 10) ≤
          cv.contourArea (cv.approxPolyDP c ((2 / 100) * cv.arcLength c true) true) / scale ^ 2 ∧
        q = (cv.approxPolyDP c ((2 / 100) * cv.arcLength c true) true).map
              (fun p => (p.1 / scale, p.2 / scale))) ∧
    (∀ c ∈ candidatesOf cv gray t,
      (cv.approxPolyDP c ((2 / 100) * cv.arcLength c true) true).length = 4 →
      cv.contourArea (cv.approxPolyDP c ((2 / 100) * cv.arcLength c true) true) / scale ^ 2 <
        ((h * w : Nat) : ℚ) * (2 / 10) →
      acceptOf cv scale (((h * w : Nat) : ℚ) * (2 / 10)) c = none) := by
  constructor
  · rw [contourPass, findSomeEqSomeIff]
    constructor
    · rintro ⟨l₁, c, l₂, hdec, hpre, hacc⟩
      rw [acceptOf_eq_some_iff _ _ _ _ _ hs] at hacc
      exact ⟨l₁, c, l₂, hdec, hpre, hacc.1, hacc.2.1, hacc.2.2⟩
    · rintro ⟨l₁, c, l₂, hdec, hpre, h4, harea, hq⟩
      exact ⟨l₁, c, l₂, hdec, hpre, (acceptOf_eq_some_iff _ _ _ _ _ hs).mpr ⟨h4, harea, hq⟩⟩
  · intro c hc h4 hlt
    unfold acceptOf
    rw [if_pos h4, if_neg]
    intro hge
    have hle : ((h * w : Nat) : ℚ) * (2 / 10) ≤
        cv.contourArea (cv.approxPolyDP c ((2 / 100) * cv.arcLength c true) true) / scale ^ 2 :=
      (le_div_iff (by positivity : (0:ℚ) < scale ^ 2)).mpr hge
    exact absurd hle (not_le.mpr hlt)

/-- Witness for C6 at the trivial primitives (empty candidate list), scale 1
and a 1 × 1 image. -/
theorem contourPass_acceptance_witness :
    (0 : ℚ) < 1 ∧
    ((contourPass cvZ grayC3 1 (((1 * 1 : Nat) : ℚ) * (2 / 10)) (30, 100) = some [] ↔
      ∃ l₁ c l₂, candidatesOf cvZ grayC3 (30, 100) = l₁ ++ c :: l₂ ∧
        (∀ x ∈ l₁, acceptOf cvZ 1 (((1 * 1 : Nat) : ℚ) * (2 / 10)) x = none) ∧
        (cvZ.approxPolyDP c ((2 / 100) * cvZ.arcLength c true) true).length = 4 ∧
        ((1 * 1 : Nat) : ℚ) * (2 / 10) ≤
          cvZ.contourArea (cvZ.approxPolyDP c ((2 / 100) * cvZ.arcLength c true) true) / 1 ^ 2 ∧
        ([] : Quad) = (cvZ.approxPolyDP c ((2 / 100) * cvZ.arcLength c true) true).map
              (fun p => (p.1 / 1, p.2 / 1))) ∧
     (∀ c ∈ candidatesOf cvZ grayC3 (30, 100),
      (cvZ.approxPolyDP c ((2 / 100) * cvZ.arcLength c true) true).length = 4 →
      cvZ.contourArea (cvZ.approxPolyDP c ((2 / 100) * cvZ.arcLength c true) true) / 1 ^ 2 <
        ((1 * 1 : Nat) : ℚ) * (2 / 10) →
      acceptOf cvZ 1 (((1 * 1 : Nat) : ℚ) * (2 / 10)) c = none)) :=
  ⟨by norm_num, contourPass_acceptance cvZ grayC3 1 1 1 (30, 100) [] (by norm_num)⟩

/-- Claim C7: the locator tries exactly the three Canny threshold pairs
(30,100), (50,150), (75,200), in strictly increasing (loose-to-strict) order;
it returns None exactly when every pass fails, and returns a quadrilateral
exactly when some pass succeeds with all earlier passes failing (first
success wins). -/
theorem findDocumentContour_threshold_retry (cv : CV) (img g : Img) (q : Quad)
    (hg : cvtColorBGR2GRAY (procImgOf cv img) = Except.ok g) :
    cannyPairs = [(30, 100), (50, 150), (75, 200)] ∧
    List.Pairwise (fun a b => a.1 < b.1 ∧ a.2 < b.2) cannyPairs ∧
    (findDocumentContour cv img = Except.ok none ↔
      ∀ t ∈ cannyPairs,
        contourPass cv (gaussianBlurImg cv g) (scaleOf img) (minAreaOf img) t = none) ∧
    (findDocumentContour cv img = Except.ok (some q) ↔
      ∃ l₁ t l₂, cannyPairs = l₁ ++ t :: l₂ ∧
        (∀ x ∈ l₁,
          contourPass cv (gaussianBlurImg cv g) (scaleOf img) (minAreaOf img) x = none) ∧
        contourPass cv (gaussianBlurImg cv g) (scaleOf img) (minAreaOf img) t = some q) := by
  have hfd : findDocumentContour cv img =
      Except.ok (tryPasses cv (gaussianBlurImg cv g) (scaleOf img) (minAreaOf img)) := by
    unfold findDocumentContour
    rw [hg, bindOkEq]
    rfl
  refine ⟨rfl, by decide, ?_, ?_⟩
  · rw [hfd]
    simp only [Except.ok.injEq]
    unfold tryPasses
    exact findSomeEqNoneIff _ _
  · rw [hfd]
    simp only [Except.ok.injEq]
    unfold tryPasses
    exact findSomeEqSomeIff _ _ _

/-- Witness for C7 at the trivial primitives on the 1 × 1 colour image
(grayscale conversion succeeds, every pass is empty). -/
theorem findDocumentContour_threshold_retry_witness :
    cvtColorBGR2GRAY (procImgOf cvZ imgC3) = Except.ok grayC3 ∧
    (cannyPairs = [(30, 100), (50, 150), (75, 200)] ∧
     List.Pairwise (fun a b => a.1 < b.1 ∧ a.2 < b.2) cannyPairs ∧
     (findDocumentContour cvZ imgC3 = Except.ok none ↔
       ∀ t ∈ cannyPairs,
         contourPass cvZ (gaussianBlurImg cvZ grayC3) (scaleOf imgC3) (minAreaOf imgC3) t =
           none) ∧
     (findDocumentContour cvZ imgC3 = Except.ok (some []) ↔
       ∃ l₁ t l₂, cannyPairs = l₁ ++ t :: l₂ ∧
         (∀ x ∈ l₁,
           contourPass cvZ (gaussianBlurImg cvZ grayC3) (scaleOf imgC3) (minAreaOf imgC3) x =
             none) ∧
         contourPass cvZ (gaussianBlurImg cvZ grayC3) (scaleOf imgC3) (minAreaOf imgC3) t =
           some [])) := by
  have hg : cvtColorBGR2GRAY (procImgOf cvZ imgC3) = Except.ok grayC3 := by
    norm_num [procImgOf, height, imgC3, cvtColorBGR2GRAY, channelsR, grayRowsOf, grayFix, grayC3]
  exact ⟨hg, findDocumentContour_threshold_retry cvZ imgC3 grayC3 [] hg⟩
